import Mathlib

/-!
Verification of the chat-log parsing and analysis engine of "theideaofus".

The JavaScript sources are shallowly embedded:

* `custom-chat-parser.js` (`parseCustomChat`): lines are `List Char`
  (the caller's `split('\n')` is modeled by handing the parser the list of
  lines).  The two regular expressions
  `^\[(\d{2}\/\d{2}\/\d{2}),\s(\d{1,2}:\d{2}:\d{2}\s[AP]M)\]\s(.+?):\s(.+)$`
  and its no-seconds variant are embedded as deterministic matchers
  (`matchHeader`); the only variable-width pieces of the pattern are
  `\d{1,2}` (greedy, handled by explicit two-then-one digit backtracking)
  and the lazy `(.+?)` (handled by trying the shortest sender first and
  extending on failure), so the deterministic matchers realize exactly the
  backtracking regex semantics.  JS numbers that are always integers here
  are `Nat`/`Int`; `parseInt` is `jsParseIntNat` (inputs in this program are
  always digit-led, sign- and radix-prefix-free).  `new Date(y, m, d, ...)`
  is modeled as the component record `JsTimestamp` (the program never reads
  the constructed `Date` back apart from serializing it).

* `data-analyzer.js`: an analyzer-side message (`AMsg`) carries its epoch
  timestamp in milliseconds (`Nat`, valid dates) and its sender.  The ISO
  day key `toISOString().slice(0, 10)` is modeled by the day index
  `timestamp / 86400000`; ISO day strings compare lexicographically exactly
  as these indices compare numerically, and `Array.prototype.sort()` on the
  distinct day keys is modeled by `List.insertionSort (· ≤ ·)` (sorting the
  set of distinct keys has a unique result, so the choice of sorting
  algorithm is immaterial).  JS float arithmetic on the involved averages
  and ratios is idealized as `ℚ`; division by zero (JS `NaN`/`Infinity`)
  has no counterpart in `ℚ`, so theorems about the ratio computations carry
  explicit nonzero-denominator hypotheses wherever the denominator is not
  provably nonzero.
-/

namespace TheIdeaOfUs

/-! ### Character classes of the JS regexes -/

/-- JS regex `\s` (ECMAScript WhiteSpace ∪ LineTerminator), by code point. -/
def isWS (c : Char) : Bool :=
  c.toNat = 9 || c.toNat = 10 || c.toNat = 11 || c.toNat = 12 || c.toNat = 13 ||
  c.toNat = 32 || c.toNat = 160 || c.toNat = 0x1680 ||
  (0x2000 ≤ c.toNat && c.toNat ≤ 0x200a) ||
  c.toNat = 0x2028 || c.toNat = 0x2029 || c.toNat = 0x202f || c.toNat = 0x205f ||
  c.toNat = 0x3000 || c.toNat = 0xfeff

/-- JS regex `.` without the `s` flag: any character except a LineTerminator. -/
def isDotC (c : Char) : Bool :=
  !(c.toNat = 10 || c.toNat = 13 || c.toNat = 0x2028 || c.toNat = 0x2029)

/-- JS regex `\d`, i.e. `[0-9]`. -/
def isDigitC (c : Char) : Bool :=
  48 ≤ c.toNat && c.toNat ≤ 57

/-! ### JS string primitives used by the parser -/

/-- `needle` occurs at the start of `hay` (used by `hasSub`). -/
def hasPre : List Char → List Char → Bool
  | [], _ => true
  | _ :: _, [] => false
  | a :: as, b :: bs => a = b && hasPre as bs

/-- JS `String.prototype.includes`: `needle` occurs somewhere in `hay`. -/
def hasSub (needle : List Char) : List Char → Bool
  | [] => hasPre needle []
  | c :: t => hasPre needle (c :: t) || hasSub needle t

/-- JS `String.prototype.trim` (strips `\s`-class characters at both ends). -/
def trimChars (cs : List Char) : List Char :=
  ((cs.dropWhile isWS).reverse.dropWhile isWS).reverse

/-- JS `String.prototype.split` with a single-character separator. -/
def splitOnChar (sep : Char) : List Char → List (List Char)
  | [] => [[]]
  | c :: rest =>
    let r := splitOnChar sep rest
    if c = sep then [] :: r
    else (c :: r.headD []) :: r.tail

/-- JS `replace(/\s[AP]M/, '')`: delete the first occurrence of a
whitespace character followed by `A` or `P` followed by `M`. -/
def removeAmPm : List Char → List Char
  | w :: p :: 'M' :: rest =>
    if isWS w && (p = 'A' || p = 'P') then rest
    else w :: removeAmPm (p :: 'M' :: rest)
  | c :: rest => c :: removeAmPm rest
  | [] => []

/-- Numeric value of a digit character. -/
def dVal (c : Char) : Nat := c.toNat - 48

/-- Value of a digit string, most significant first. -/
def digitsToNat (ds : List Char) : Nat :=
  ds.foldl (fun n c => 10 * n + dVal c) 0

/-- JS `parseInt` restricted to the inputs this program feeds it (digit-led
after optional leading whitespace, decimal): `none` is JS `NaN`. -/
def jsParseIntNat (cs : List Char) : Option Nat :=
  let cs' := cs.dropWhile isWS
  match cs'.takeWhile isDigitC with
  | [] => none
  | ds => some (digitsToNat ds)

/-- `parseInt` as used in `parseCustomChat`, where the regex guarantees a
digit-led argument (the `0` default is unreachable on accepted lines). -/
def pInt (cs : List Char) : Nat := (jsParseIntNat cs).getD 0

/-! ### The two header regexes, as deterministic matchers

`customPattern = /^\[(\d{2}\/\d{2}\/\d{2}),\s(\d{1,2}:\d{2}:\d{2}\s[AP]M)\]\s(.+?):\s(.+)$/`
`altPattern    = /^\[(\d{2}\/\d{2}\/\d{2}),\s(\d{1,2}:\d{2}\s[AP]M)\]\s(.+?):\s(.+)$/`
-/

/-- Match `(\d{2}\/\d{2}\/\d{2})`; returns the captured date text and the
rest of the line. -/
def matchDate (cs : List Char) : Option (List Char × List Char) :=
  match cs with
  | d1 :: d2 :: s1 :: d3 :: d4 :: s2 :: d5 :: d6 :: rest =>
    if isDigitC d1 && isDigitC d2 && s1 = '/' && isDigitC d3 && isDigitC d4 &&
        s2 = '/' && isDigitC d5 && isDigitC d6
    then some ([d1, d2, s1, d3, d4, s2, d5, d6], rest)
    else none
  | _ => none

/-- Match the tail of the time group after the hour digits:
`:\d{2}:\d{2}\s[AP]M` when `withSecs`, else `:\d{2}\s[AP]M`. -/
def matchTimeRest (withSecs : Bool) (cs : List Char) : Option (List Char × List Char) :=
  if withSecs then
    match cs with
    | ':' :: m1 :: m2 :: ':' :: s1 :: s2 :: w :: p :: 'M' :: rest =>
      if isDigitC m1 && isDigitC m2 && isDigitC s1 && isDigitC s2 &&
          isWS w && (p = 'A' || p = 'P')
      then some ([':', m1, m2, ':', s1, s2, w, p, 'M'], rest)
      else none
    | _ => none
  else
    match cs with
    | ':' :: m1 :: m2 :: w :: p :: 'M' :: rest =>
      if isDigitC m1 && isDigitC m2 && isWS w && (p = 'A' || p = 'P')
      then some ([':', m1, m2, w, p, 'M'], rest)
      else none
    | _ => none

/-- Match the whole time group `\d{1,2}` + `matchTimeRest`.  `\d{1,2}` is
greedy: two digits are tried first, then one. -/
def matchTime (withSecs : Bool) : List Char → Option (List Char × List Char)
  | [] => none
  | a :: rest =>
    if isDigitC a then
      match rest with
      | [] => none
      | b :: rest2 =>
        if isDigitC b then
          match matchTimeRest withSecs rest2 with
          | some (t, r) => some (a :: b :: t, r)
          | none => (matchTimeRest withSecs rest).map (fun tr => (a :: tr.1, tr.2))
        else (matchTimeRest withSecs rest).map (fun tr => (a :: tr.1, tr.2))
    else none

/-- After a candidate sender, try to close with `:` `\s` and a nonempty
all-`.` remainder running to the end of the line (`:\s(.+)$`). -/
def closeAt : List Char → Option (List Char)
  | ':' :: w :: content =>
    if isWS w && !content.isEmpty && content.all isDotC then some content else none
  | _ => none

/-- Lazy `(.+?)` followed by `:\s(.+)$`: the sender is the shortest
nonempty run of `.`-class characters after which `closeAt` succeeds. -/
def senderSplit : List Char → Option (List Char × List Char)
  | [] => none
  | c :: rest =>
    if isDotC c then
      match closeAt rest with
      | some content => some ([c], content)
      | none => (senderSplit rest).map (fun p => (c :: p.1, p.2))
    else none

/-- Match one of the two header patterns against a whole line; returns the
four capture groups (date text, time text, raw sender, content). -/
def matchHeader (withSecs : Bool) (line : List Char) :
    Option (List Char × List Char × List Char × List Char) :=
  match line with
  | '[' :: rest =>
    match matchDate rest with
    | some (dateText, r1) =>
      match r1 with
      | ',' :: w1 :: r2 =>
        if isWS w1 then
          match matchTime withSecs r2 with
          | some (timeText, r3) =>
            match r3 with
            | ']' :: w2 :: r4 =>
              if isWS w2 then
                (senderSplit r4).map (fun p => (dateText, timeText, p.1, p.2))
              else none
            | _ => none
          | none => none
        else none
      | _ => none
    | none => none
  | _ => none

/-- `line.match(customPattern)` then, on failure, `line.match(altPattern)`. -/
def matchHeaderEither (line : List Char) :
    Option (List Char × List Char × List Char × List Char) :=
  match matchHeader true line with
  | some r => some r
  | none => matchHeader false line

/-! ### Message records and assembly -/

/-- The arguments the parser passes to `new Date(year, month, day, hour,
minute, second)`.  `month` is `Int` because the source subtracts 1 from the
parsed (possibly `00`) month field. -/
structure JsTimestamp where
  year : Nat
  month : Int
  day : Nat
  hour : Nat
  minute : Nat
  second : Nat
deriving DecidableEq

/-- A parsed message, mirroring the object literal in `parseCustomChat`. -/
structure Message where
  ts : JsTimestamp
  date : List Char
  time : List Char
  sender : List Char
  content : List Char
  isMedia : Bool
  isDeleted : Bool
  lineNumber : Nat
deriving DecidableEq

/-- The six media-omission markers tested by `content.includes(...)`. -/
def mediaMarkers : List (List Char) :=
  ["image omitted".toList, "video omitted".toList, "audio omitted".toList,
   "sticker omitted".toList, "GIF omitted".toList, "document omitted".toList]

/-- `isMedia` as computed at header-match time. -/
def checkMedia (content : List Char) : Bool :=
  mediaMarkers.any (fun m => hasSub m content)

/-- `isDeleted` as computed at header-match time. -/
def checkDeleted (content : List Char) : Bool :=
  hasSub "This message was deleted".toList content ||
  hasSub "You deleted this message".toList content

/-- Build the message object from the four capture groups and the 1-based
line number, exactly as the header-match branch of `parseCustomChat` does. -/
def mkMessage (d t s c : List Char) (ln : Nat) : Message :=
  let dateParts := splitOnChar '/' d
  let day := pInt (dateParts.getD 0 [])
  let month : Int := (pInt (dateParts.getD 1 []) : Int) - 1
  let y0 := pInt (dateParts.getD 2 [])
  let year := if y0 < 100 then y0 + 2000 else y0
  let isPM := hasSub "PM".toList t
  let timeParts := splitOnChar ':' t
  let hour0 := pInt (timeParts.getD 0 [])
  let hour := if isPM = true ∧ hour0 < 12 then hour0 + 12
              else if isPM = false ∧ hour0 = 12 then 0
              else hour0
  let minute := pInt (timeParts.getD 1 [])
  let second := if timeParts.length > 2 then pInt (removeAmPm (timeParts.getD 2 [])) else 0
  { ts := ⟨year, month, day, hour, minute, second⟩
    date := d
    time := t
    sender := trimChars s
    content := c
    isMedia := checkMedia c
    isDeleted := checkDeleted c
    lineNumber := ln }

/-- `line.trim() === ''`. -/
def isBlank (line : List Char) : Bool := line.all isWS

/-- The `lines.forEach` body of `parseCustomChat`, with the open
`currentMessage` threaded explicitly and the final flush at end of input.
`idx` is the 0-based index of the first line of the argument list. -/
def parseLines : List (List Char) → Nat → Option Message → List Message
  | [], _, cur =>
    match cur with
    | some m => [m]
    | none => []
  | line :: rest, idx, cur =>
    if isBlank line then parseLines rest (idx + 1) cur
    else
      match matchHeaderEither line with
      | some (d, t, s, c) =>
        (match cur with
         | some prev => [prev]
         | none => []) ++ parseLines rest (idx + 1) (some (mkMessage d t s c (idx + 1)))
      | none =>
        match cur with
        | some prev =>
          parseLines rest (idx + 1) (some { prev with content := prev.content ++ '\n' :: line })
        | none => parseLines rest (idx + 1) none

/-- `parseCustomChat`, taking the already-split list of lines. -/
def parseCustomChat (lines : List (List Char)) : List Message :=
  parseLines lines 0 none

/-! ### The analyzer (`data-analyzer.js`)

Messages as the analyzer sees them: an epoch timestamp in milliseconds
(valid, hence `Nat`) and a sender name. -/

structure AMsg where
  timestamp : Nat
  sender : String
deriving DecidableEq

/-- The day bucket `timestamp.toISOString().slice(0, 10)`: ISO day strings
order and compare exactly as the UTC day indices `timestamp / 86400000`. -/
def dayOf (m : AMsg) : Nat := m.timestamp / 86400000

/-- `Object.keys(messagesByDay).sort()`: the distinct day keys, sorted
ascending (JS sorts the ISO strings lexicographically, which is the
numeric order of the day indices). -/
def sortedDays (msgs : List AMsg) : List Nat :=
  ((msgs.map dayOf).dedup).insertionSort (· ≤ ·)

/-- The start indices produced by
`for (let i = 0; i < sortedDays.length - WINDOW_SIZE; i += Math.ceil(WINDOW_SIZE / 2))`
with `WINDOW_SIZE = 30` (so the stride is 15).  `fuel` is a termination
device only; `n` iterations always suffice because every emitted index is
below `bound ≤ n` and indices grow by 15. -/
def windowLoop : Nat → Nat → Nat → List Nat
  | 0, _, _ => []
  | fuel + 1, bound, i => if i < bound then i :: windowLoop fuel bound (i + 15) else []

/-- All window start indices for `n` distinct days.  (JS evaluates
`i < n - 30` over possibly negative numbers; for `n < 30` the condition is
false at `i = 0`, matching truncated `Nat` subtraction.) -/
def windowStarts (n : Nat) : List Nat := windowLoop n (n - 30) 0

/-- `sortedDays.slice(i, i + WINDOW_SIZE)`. -/
def windowDays (days : List Nat) (i : Nat) : List Nat := (days.drop i).take 30

/-- The window's messages: for each window day, in order, all messages of
that day in original order (`windowMessages.push(...messagesByDay[day])`). -/
def windowMsgs (msgs : List AMsg) (days : List Nat) (i : Nat) : List AMsg :=
  (windowDays days i).flatMap (fun d => msgs.filter (fun m => dayOf m = d))

/-- `responseCount`: adjacent pairs of window messages with differing
senders. -/
def countResponses : List AMsg → Nat
  | a :: b :: rest => (if b.sender ≠ a.sender then 1 else 0) + countResponses (b :: rest)
  | _ => 0

/-- One entry of `windowMetrics`.  The per-sender message counts and the
per-window content/sentiment summaries (which call into the external
`natural`/`sentiment` libraries) are not referenced by any claim and are
omitted from the record. -/
structure WindowMetrics where
  startDate : Nat
  endDate : Nat
  messageCount : Nat
  messagesPerDay : ℚ
  responseFrequency : ℚ
deriving DecidableEq

/-- The window metrics pushed for start index `i`. -/
def mkWindow (msgs : List AMsg) (days : List Nat) (i : Nat) : WindowMetrics :=
  let wd := windowDays days i
  let wm := windowMsgs msgs days i
  { startDate := wd.headD 0
    endDate := wd.getLastD 0
    messageCount := wm.length
    messagesPerDay := (wm.length : ℚ) / (wd.length : ℚ)
    responseFrequency := (countResponses wm : ℚ) / (wm.length : ℚ) }

/-- The `windowMetrics` array of `analyzeRelationshipPatterns`. -/
def windowMetricsList (msgs : List AMsg) : List WindowMetrics :=
  (windowStarts (sortedDays msgs).length).map (mkWindow msgs (sortedDays msgs))

/-- One recorded pattern shift (`metrics` is inlined into the two change
fields). -/
structure PatternShift where
  date : Nat
  frequencyChange : ℚ
  responseChange : ℚ
  prevWindow : WindowMetrics
  currWindow : WindowMetrics
deriving DecidableEq

/-- The shift object pushed for a pair of adjacent windows. -/
def mkShift (prev curr : WindowMetrics) : PatternShift :=
  { date := curr.startDate
    frequencyChange := (curr.messagesPerDay - prev.messagesPerDay) / prev.messagesPerDay
    responseChange := (curr.responseFrequency - prev.responseFrequency) / prev.responseFrequency
    prevWindow := prev
    currWindow := curr }

/-- The `patternShifts` loop over consecutive `windowMetrics` entries:
record a shift when `Math.abs(frequencyChange) > 0.3 ||
Math.abs(responseChange) > 0.3`. -/
def detectShifts : List WindowMetrics → List PatternShift
  | prev :: curr :: rest =>
    (if |(curr.messagesPerDay - prev.messagesPerDay) / prev.messagesPerDay| > 0.3 ∨
        |(curr.responseFrequency - prev.responseFrequency) / prev.responseFrequency| > 0.3
     then [mkShift prev curr] else []) ++ detectShifts (curr :: rest)
  | _ => []

/-- `analyzeRelationshipPatterns`, restricted to the two returned fields. -/
def analyzeRelationshipPatterns (msgs : List AMsg) :
    List WindowMetrics × List PatternShift :=
  (windowMetricsList msgs, detectShifts (windowMetricsList msgs))

/-! ### The temporal aggregator (`analyzeTemporalPatterns`) -/

/-- `(timestamp - prevTimestamp) / 1000 / 60`, in minutes. -/
def respTime (prev curr : AMsg) : ℚ :=
  ((curr.timestamp : ℚ) - (prev.timestamp : ℚ)) / 1000 / 60

/-- One step of the response-time accumulation: skip same-sender pairs,
record the latency under the current sender when it is below 24 hours. -/
def recordResp (prev curr : AMsg) (acc : String → List ℚ) : String → List ℚ :=
  if curr.sender = prev.sender then acc
  else if respTime prev curr < 24 * 60 then
    fun s => if s = curr.sender then acc s ++ [respTime prev curr] else acc s
  else acc

/-- The `index > 0` part of the `messages.forEach` loop, over consecutive
pairs. -/
def respLoop : AMsg → List AMsg → (String → List ℚ) → (String → List ℚ)
  | _, [], acc => acc
  | prev, curr :: rest, acc => respLoop curr rest (recordResp prev curr acc)

/-- `responseTimesBySender` as a total map; a sender absent from the JS
dictionary is mapped to `[]`. -/
def responseTimesBySender (msgs : List AMsg) : String → List ℚ :=
  match msgs with
  | [] => fun _ => []
  | m :: rest => respLoop m rest (fun _ => [])

/-- `avgResponseTimes`: defined only (`some`) for senders present in
`responseTimesBySender`; `times.reduce((sum, t) => sum + t, 0) /
times.length`. -/
def avgResponseTimes (msgs : List AMsg) (s : String) : Option ℚ :=
  let ts := responseTimesBySender msgs s
  if ts.isEmpty then none
  else some (ts.foldl (· + ·) 0 / (ts.length : ℚ))

/-! ### The orchestrator (`analyzeWhatsAppChat`) -/

/-- The `basicStats` block (`firstMessageDate`/`lastMessageDate` are the
raw `date` fields of the boundary messages; `AMsg` keeps no date text, so
the record keeps the two boundary timestamps instead). -/
structure BasicStats where
  messageCount : Nat
  uniqueSenders : List String
  firstTimestamp : Nat
  lastTimestamp : Nat
  durationDays : ℚ
deriving DecidableEq

/-- The combined report.  The content and sentiment analyses delegate to
the external `natural`/`sentiment` packages and are outside the embedded
core; the embedded analyses are carried in full. -/
structure Report where
  basicStats : BasicStats
  responseTimes : String → List ℚ
  avgResponse : String → Option ℚ
  relationship : List WindowMetrics × List PatternShift

/-- `analyzeWhatsAppChat`: on an empty message sequence the source throws
(`messages[messages.length - 1]` is `undefined` and `.timestamp` on it is
a `TypeError`, caught by `processAnalysis`, which returns `null` and
aborts the pipeline); this is modeled as `none`. -/
def analyzeWhatsAppChat (msgs : List AMsg) : Option Report :=
  match msgs.head?, msgs.getLast? with
  | some first, some last =>
    some { basicStats :=
            { messageCount := msgs.length
              uniqueSenders := (msgs.map (fun m => m.sender)).dedup
              firstTimestamp := first.timestamp
              lastTimestamp := last.timestamp
              durationDays := ((last.timestamp : ℚ) - (first.timestamp : ℚ)) /
                (1000 * 60 * 60 * 24) }
           responseTimes := responseTimesBySender msgs
           avgResponse := fun s => avgResponseTimes msgs s
           relationship := analyzeRelationshipPatterns msgs }
  | _, _ => none

/-! ### Demonstration inputs used by concrete instances of the claims -/

/-- `n` analyzer messages, one per day on days `0, 1, ..., n - 1`, all from
one sender. -/
def allDays (n : Nat) : List AMsg :=
  (List.range n).map (fun d => ⟨d * 86400000, "A"⟩)

/-- The expected output of `parseLines` on header-only input: one message
per line (used to state the round-trip property). -/
def headerMessages : List (List Char) → Nat → List Message
  | [], _ => []
  | l :: ls, idx =>
    (match matchHeaderEither l with
     | some (d, t, s, c) => [mkMessage d t s c (idx + 1)]
     | none => []) ++ headerMessages ls (idx + 1)

/-- A sample header line. -/
def hdrAlice : List Char := "[01/02/23, 09:15 PM] Alice: hi".toList

/-- A second sample header line. -/
def hdrBob : List Char := "[01/02/23, 09:16 PM] Bob: yo".toList

/-- The hour field of a matched time text: the digits before the first
`:` (specification accessor used to state the 12-hour conversion claim). -/
def hourFieldVal (t : List Char) : Nat := pInt ((splitOnChar ':' t).getD 0 [])

/-- The AM/PM designator of a matched time text: its second-to-last
character (specification accessor). -/
def amPmOf (t : List Char) : Char := t.getD (t.length - 2) ' '

/-! ## Lemmas: the window loop -/

lemma windowLoop_mem : ∀ (fuel bound i s : Nat), bound ≤ i + 15 * fuel →
    (s ∈ windowLoop fuel bound i ↔ ∃ k, s = i + 15 * k ∧ s < bound) := by
  intro fuel
  induction fuel with
  | zero =>
    intro bound i s h
    constructor
    · intro hs; exact absurd hs (List.not_mem_nil s)
    · rintro ⟨k, rfl, hlt⟩; omega
  | succ n ih =>
    intro bound i s h
    rw [windowLoop]
    by_cases hib : i < bound
    · rw [if_pos hib, List.mem_cons, ih bound (i + 15) s (by omega)]
      constructor
      · rintro (rfl | ⟨k, rfl, hk⟩)
        · exact ⟨0, by omega, hib⟩
        · exact ⟨k + 1, by omega, hk⟩
      · rintro ⟨k, rfl, hk⟩
        cases k with
        | zero => left; omega
        | succ k' => right; exact ⟨k', by omega, hk⟩
    · rw [if_neg hib]
      constructor
      · intro hs; exact absurd hs (List.not_mem_nil s)
      · rintro ⟨k, rfl, hk⟩; omega

lemma windowStarts_mem (n s : Nat) : s ∈ windowStarts n ↔ 15 ∣ s ∧ s + 30 < n := by
  rw [windowStarts, windowLoop_mem n (n - 30) 0 s (by omega)]
  constructor
  · rintro ⟨k, rfl, hk⟩; exact ⟨⟨k, by omega⟩, by omega⟩
  · rintro ⟨⟨k, rfl⟩, h⟩; exact ⟨k, by omega, by omega⟩

/-! ## Lemmas: day bucketing -/

lemma sortedDays_nodup (msgs : List AMsg) : (sortedDays msgs).Nodup :=
  ((List.perm_insertionSort _ _).nodup_iff).mpr (List.nodup_dedup _)

lemma mem_sortedDays {msgs : List AMsg} {d : Nat} :
    d ∈ sortedDays msgs ↔ ∃ m ∈ msgs, dayOf m = d := by
  rw [sortedDays, (List.perm_insertionSort _ _).mem_iff, List.mem_dedup, List.mem_map]

lemma windowDays_sublist (days : List Nat) (i : Nat) :
    List.Sublist (windowDays days i) days :=
  (List.take_sublist _ _).trans (List.drop_sublist _ _)

lemma windowDays_length {days : List Nat} {i : Nat} (h : i + 30 < days.length) :
    (windowDays days i).length = 30 := by
  simp only [windowDays, List.length_take, List.length_drop]
  omega

lemma le_length_flatMap {α β : Type} (l : List α) (f : α → List β)
    (h : ∀ x ∈ l, 1 ≤ (f x).length) : l.length ≤ (l.flatMap f).length := by
  induction l with
  | nil => simp
  | cons a tl ih =>
    have h1 := h a (List.mem_cons_self a tl)
    have h2 := ih (fun x hx => h x (List.mem_cons_of_mem a hx))
    simp only [List.flatMap_cons, List.length_append, List.length_cons]
    omega

/-! ## Lemmas: shift detection -/

lemma detectShifts_mem_cond : ∀ (ms : List WindowMetrics) (p c : WindowMetrics),
    mkShift p c ∈ detectShifts ms →
    |(c.messagesPerDay - p.messagesPerDay) / p.messagesPerDay| > 0.3 ∨
    |(c.responseFrequency - p.responseFrequency) / p.responseFrequency| > 0.3 := by
  intro ms
  induction ms with
  | nil => intro p c h; simp [detectShifts] at h
  | cons a tail ih =>
    intro p c h
    cases tail with
    | nil => simp [detectShifts] at h
    | cons b rest =>
      rw [detectShifts] at h
      rcases List.mem_append.mp h with h1 | h2
      · split at h1
        case isTrue hcond =>
          rw [List.mem_singleton, mkShift, mkShift, PatternShift.mk.injEq] at h1
          obtain ⟨-, -, -, hp, hc⟩ := h1
          subst hp; subst hc
          exact hcond
        case isFalse hcond => simp at h1
      · exact ih p c h2

lemma detectShifts_mem_of_cond (p c : WindowMetrics)
    (h : |(c.messagesPerDay - p.messagesPerDay) / p.messagesPerDay| > 0.3 ∨
         |(c.responseFrequency - p.responseFrequency) / p.responseFrequency| > 0.3) :
    ∀ (pre post : List WindowMetrics), mkShift p c ∈ detectShifts (pre ++ p :: c :: post) := by
  intro pre
  induction pre with
  | nil =>
    intro post
    rw [List.nil_append, detectShifts, if_pos h]
    exact List.mem_append_left _ (List.mem_singleton.mpr rfl)
  | cons a pre' ih =>
    intro post
    rw [List.cons_append]
    cases hp : pre' ++ p :: c :: post with
    | nil => exact absurd hp (by simp)
    | cons b l' =>
      rw [detectShifts]
      exact List.mem_append_right _ (hp ▸ ih post)

/-! ## Lemmas: response-time accumulation -/

lemma respLoop_eq : ∀ (rest : List AMsg) (prev : AMsg) (acc : String → List ℚ) (s : String),
    respLoop prev rest acc s =
      acc s ++ (((prev :: rest).zip rest).filter
        (fun q => decide (q.2.sender = s) && decide (q.2.sender ≠ q.1.sender) &&
          decide (respTime q.1 q.2 < 1440))).map (fun q => respTime q.1 q.2) := by
  intro rest
  induction rest with
  | nil => intro prev acc s; simp [respLoop]
  | cons c t ih =>
    intro prev acc s
    have h1440 : (24 * 60 : ℚ) = 1440 := by norm_num
    show respLoop c t (recordResp prev c acc) s = _
    rw [ih c (recordResp prev c acc) s, List.zip_cons_cons, List.filter_cons]
    unfold recordResp
    by_cases hsame : c.sender = prev.sender
    · rw [if_pos hsame]
      have hc : (decide (c.sender = s) && decide (c.sender ≠ prev.sender) &&
          decide (respTime prev c < 1440)) = false := by
        simp [hsame]
      rw [hc]
      simp
    · rw [if_neg hsame]
      by_cases hlt : respTime prev c < 24 * 60
      · rw [if_pos hlt]
        by_cases hs : s = c.sender
        · have hc : (decide (c.sender = s) && decide (c.sender ≠ prev.sender) &&
              decide (respTime prev c < 1440)) = true := by
            simp only [ne_eq, Bool.and_eq_true, decide_eq_true_eq]
            exact ⟨⟨hs.symm, hsame⟩, h1440 ▸ hlt⟩
          rw [hc, if_pos hs]
          simp
        · have hc : (decide (c.sender = s) && decide (c.sender ≠ prev.sender) &&
              decide (respTime prev c < 1440)) = false := by
            rw [Bool.eq_false_iff]
            simp only [ne_eq, Bool.and_eq_true, decide_eq_true_eq, not_and]
            intro h
            exact absurd h.1.symm hs
          rw [hc, if_neg hs]
          simp
      · rw [if_neg hlt]
        have hc : (decide (c.sender = s) && decide (c.sender ≠ prev.sender) &&
            decide (respTime prev c < 1440)) = false := by
          rw [Bool.eq_false_iff]
          simp only [ne_eq, Bool.and_eq_true, decide_eq_true_eq, not_and]
          intro h1 h2
          exact hlt (h1440.symm ▸ h2)
        rw [hc]
        simp

/-! ## Lemmas: the line classifier and assembler -/

lemma matchHeader_head {b : Bool} {line : List Char}
    {r : List Char × List Char × List Char × List Char}
    (h : matchHeader b line = some r) : ∃ rest, line = '[' :: rest := by
  unfold matchHeader at h
  split at h
  · next rest => exact ⟨rest, rfl⟩
  · exact absurd h (by simp)

lemma not_blank_of_match {line : List Char}
    {r : List Char × List Char × List Char × List Char}
    (h : matchHeaderEither line = some r) : isBlank line = false := by
  unfold matchHeaderEither at h
  have hh : ∃ rest, line = '[' :: rest := by
    cases hm : matchHeader true line with
    | some v => exact matchHeader_head hm
    | none => rw [hm] at h; exact matchHeader_head h
  obtain ⟨rest, rfl⟩ := hh
  simp [isBlank, isWS]

lemma mkMessage_lineNumber (d t s c : List Char) (ln : Nat) :
    (mkMessage d t s c ln).lineNumber = ln := rfl

lemma mkMessage_content (d t s c : List Char) (ln : Nat) :
    (mkMessage d t s c ln).content = c := rfl

lemma parseLines_headers : ∀ (lines : List (List Char)),
    (∀ l ∈ lines, (matchHeaderEither l).isSome = true) →
    ∀ (idx : Nat) (cur : Option Message),
    parseLines lines idx cur = cur.toList ++ headerMessages lines idx := by
  intro lines
  induction lines with
  | nil => intro h idx cur; cases cur <;> simp [parseLines, headerMessages]
  | cons l ls ih =>
    intro h idx cur
    obtain ⟨⟨d, t, s, c⟩, hm⟩ := Option.isSome_iff_exists.mp (h l (List.mem_cons_self l ls))
    have hb := not_blank_of_match hm
    have ihe := ih (fun x hx => h x (List.mem_cons_of_mem l hx)) (idx + 1)
      (some (mkMessage d t s c (idx + 1)))
    cases cur with
    | none => simp [parseLines, hb, hm, headerMessages, ihe]
    | some prev => simp [parseLines, hb, hm, headerMessages, ihe]

lemma headerMessages_length : ∀ (lines : List (List Char)),
    (∀ l ∈ lines, (matchHeaderEither l).isSome = true) →
    ∀ idx : Nat, (headerMessages lines idx).length = lines.length := by
  intro lines
  induction lines with
  | nil => intro h idx; rfl
  | cons l ls ih =>
    intro h idx
    obtain ⟨⟨d, t, s, c⟩, hm⟩ := Option.isSome_iff_exists.mp (h l (List.mem_cons_self l ls))
    simp [headerMessages, hm, ih (fun x hx => h x (List.mem_cons_of_mem l hx)) (idx + 1)]

lemma headerMessages_lineNumbers : ∀ (lines : List (List Char)),
    (∀ l ∈ lines, (matchHeaderEither l).isSome = true) →
    ∀ idx : Nat, (headerMessages lines idx).map (fun m => m.lineNumber) =
      List.range' (idx + 1) lines.length := by
  intro lines
  induction lines with
  | nil => intro h idx; rfl
  | cons l ls ih =>
    intro h idx
    obtain ⟨⟨d, t, s, c⟩, hm⟩ := Option.isSome_iff_exists.mp (h l (List.mem_cons_self l ls))
    simp [headerMessages, hm, ih (fun x hx => h x (List.mem_cons_of_mem l hx)) (idx + 1),
      mkMessage_lineNumber, List.range']

lemma parseLines_continuations : ∀ (ls : List (List Char)),
    (∀ l ∈ ls, isBlank l = false ∧ matchHeaderEither l = none) →
    ∀ (idx : Nat) (m : Message),
    parseLines ls idx (some m) =
      [{ m with content := m.content ++ ls.flatMap (fun l => '\n' :: l) }] := by
  intro ls
  induction ls with
  | nil => intro h idx m; simp [parseLines]
  | cons l t ih =>
    intro h idx m
    obtain ⟨hb, hm⟩ := h l (List.mem_cons_self l t)
    have ihe := ih (fun x hx => h x (List.mem_cons_of_mem l hx)) (idx + 1)
      ({ m with content := m.content ++ '\n' :: l })
    simp only [parseLines, hb, Bool.false_eq_true, if_false, hm] at ihe ⊢
    rw [ihe]
    simp [List.append_assoc]

/-! ## Lemmas: character classes, splitting and parseInt -/

lemma ne_of_cls {p : Char → Bool} {c d : Char} (h : p c = true) (hd : p d = false) :
    c ≠ d :=
  fun e => by rw [e, hd] at h; exact Bool.noConfusion h

lemma digit_not_ws {c : Char} (h : isDigitC c = true) : isWS c = false := by
  simp only [isDigitC, Bool.and_eq_true, decide_eq_true_eq] at h
  rw [Bool.eq_false_iff]
  intro hw
  simp only [isWS, Bool.or_eq_true, Bool.and_eq_true, decide_eq_true_eq] at hw
  omega

lemma splitOnChar_no_sep {sep : Char} : ∀ {xs : List Char}, (∀ x ∈ xs, x ≠ sep) →
    splitOnChar sep xs = [xs] := by
  intro xs
  induction xs with
  | nil => intro h; rfl
  | cons c t ih =>
    intro h
    have hc := h c (List.mem_cons_self c t)
    simp [splitOnChar, hc, ih (fun x hx => h x (List.mem_cons_of_mem c hx))]

lemma splitOnChar_append_sep {sep : Char} : ∀ (hd rest : List Char),
    (∀ x ∈ hd, x ≠ sep) →
    splitOnChar sep (hd ++ sep :: rest) = hd :: splitOnChar sep rest := by
  intro hd
  induction hd with
  | nil => intro rest h; simp [splitOnChar]
  | cons c t ih =>
    intro rest h
    have hc := h c (List.mem_cons_self c t)
    simp [splitOnChar, hc, ih rest (fun x hx => h x (List.mem_cons_of_mem c hx))]

lemma takeWhile_all {p : Char → Bool} : ∀ {xs : List Char}, (∀ x ∈ xs, p x = true) →
    xs.takeWhile p = xs := by
  intro xs
  induction xs with
  | nil => intro h; rfl
  | cons c t ih =>
    intro h
    simp [List.takeWhile_cons, h c (List.mem_cons_self c t),
      ih (fun x hx => h x (List.mem_cons_of_mem c hx))]

lemma pInt_digits (ds : List Char) (hne : ds ≠ []) (h : ∀ x ∈ ds, isDigitC x = true) :
    pInt ds = digitsToNat ds := by
  cases ds with
  | nil => exact absurd rfl hne
  | cons a t =>
    have ha := h a (List.mem_cons_self a t)
    rw [pInt, jsParseIntNat]
    rw [show (a :: t).dropWhile isWS = a :: t by
      rw [List.dropWhile_cons, digit_not_ws ha]; simp]
    rw [takeWhile_all h]
    rfl

lemma dVal_le_nine {c : Char} (h : isDigitC c = true) : dVal c ≤ 9 := by
  simp only [isDigitC, Bool.and_eq_true, decide_eq_true_eq] at h
  rw [dVal]
  omega

lemma pInt_one (a : Char) (ha : isDigitC a = true) : pInt [a] = dVal a := by
  rw [pInt_digits [a] (by simp) (by simpa using ha), digitsToNat]
  simp

lemma pInt_two (a b : Char) (ha : isDigitC a = true) (hb : isDigitC b = true) :
    pInt [a, b] = 10 * dVal a + dVal b := by
  rw [pInt_digits [a, b] (by simp) (by simp [ha, hb]), digitsToNat]
  simp [List.foldl]

/-! ## Lemmas: locating `PM` in a matched time text -/

lemma pmToList : "PM".toList = ['P', 'M'] := rfl

lemma hasSub_pm_cons {a : Char} (hne : a ≠ 'P') (l : List Char) :
    hasSub ['P', 'M'] (a :: l) = hasSub ['P', 'M'] l := by
  cases l <;> simp [hasSub, hasPre, hne, Ne.symm hne]

lemma hasSub_pm_digits (hd : List Char) (hhd : ∀ x ∈ hd, isDigitC x = true)
    (l : List Char) : hasSub ['P', 'M'] (hd ++ l) = hasSub ['P', 'M'] l := by
  induction hd with
  | nil => rfl
  | cons a t ih =>
    have ha := hhd a (List.mem_cons_self a t)
    rw [List.cons_append, hasSub_pm_cons (ne_of_cls ha (by decide)),
      ih (fun x hx => hhd x (List.mem_cons_of_mem a hx))]

lemma hasSub_pm_base (w p : Char) (hw : isWS w = true) :
    hasSub ['P', 'M'] [w, p, 'M'] = decide (p = 'P') := by
  have h1 : w ≠ 'P' := ne_of_cls hw (by decide)
  simp [hasSub, hasPre, h1, Ne.symm h1, eq_comm]

lemma hasSub_pm_nosecs (hd : List Char) (m1 m2 w p : Char)
    (hhd : ∀ x ∈ hd, isDigitC x = true)
    (hm1 : isDigitC m1 = true) (hm2 : isDigitC m2 = true) (hw : isWS w = true) :
    hasSub "PM".toList (hd ++ ':' :: m1 :: m2 :: [w, p, 'M']) = decide (p = 'P') := by
  rw [pmToList, hasSub_pm_digits hd hhd, hasSub_pm_cons (by decide),
    hasSub_pm_cons (ne_of_cls hm1 (by decide)), hasSub_pm_cons (ne_of_cls hm2 (by decide)),
    hasSub_pm_base w p hw]

lemma hasSub_pm_secs (hd : List Char) (m1 m2 s1 s2 w p : Char)
    (hhd : ∀ x ∈ hd, isDigitC x = true)
    (hm1 : isDigitC m1 = true) (hm2 : isDigitC m2 = true)
    (hs1 : isDigitC s1 = true) (hs2 : isDigitC s2 = true) (hw : isWS w = true) :
    hasSub "PM".toList (hd ++ ':' :: m1 :: m2 :: ':' :: s1 :: s2 :: [w, p, 'M']) =
      decide (p = 'P') := by
  rw [pmToList, hasSub_pm_digits hd hhd, hasSub_pm_cons (by decide),
    hasSub_pm_cons (ne_of_cls hm1 (by decide)), hasSub_pm_cons (ne_of_cls hm2 (by decide)),
    hasSub_pm_cons (by decide), hasSub_pm_cons (ne_of_cls hs1 (by decide)),
    hasSub_pm_cons (ne_of_cls hs2 (by decide)), hasSub_pm_base w p hw]

/-! ## Lemmas: inverting the matchers -/

lemma matchDate_shape {cs : List Char} {dt r : List Char}
    (h : matchDate cs = some (dt, r)) :
    ∃ a b m1 m2 y1 y2 : Char,
      isDigitC a = true ∧ isDigitC b = true ∧ isDigitC m1 = true ∧ isDigitC m2 = true ∧
      isDigitC y1 = true ∧ isDigitC y2 = true ∧
      dt = [a, b, '/', m1, m2, '/', y1, y2] := by
  unfold matchDate at h
  split at h
  · next d1 d2 s1 d3 d4 s2 d5 d6 rest =>
    split at h
    · next hcond =>
      simp only [Bool.and_eq_true, decide_eq_true_eq] at hcond
      obtain ⟨⟨⟨⟨⟨⟨⟨h1, h2⟩, h3⟩, h4⟩, h5⟩, h6⟩, h7⟩, h8⟩ := hcond
      simp only [Option.some.injEq, Prod.mk.injEq] at h
      obtain ⟨hdt, -⟩ := h
      subst h3; subst h6
      exact ⟨d1, d2, d3, d4, d5, d6, h1, h2, h4, h5, h7, h8, hdt.symm⟩
    · exact absurd h (by simp)
  · exact absurd h (by simp)

lemma matchTimeRest_shape_true {cs tl r : List Char}
    (h : matchTimeRest true cs = some (tl, r)) :
    ∃ m1 m2 s1 s2 w p : Char,
      isDigitC m1 = true ∧ isDigitC m2 = true ∧ isDigitC s1 = true ∧ isDigitC s2 = true ∧
      isWS w = true ∧ (p = 'A' ∨ p = 'P') ∧
      tl = ':' :: m1 :: m2 :: ':' :: s1 :: s2 :: [w, p, 'M'] := by
  unfold matchTimeRest at h
  rw [if_pos rfl] at h
  split at h
  · next m1 m2 s1 s2 w p rest =>
    split at h
    · next hcond =>
      simp only [Bool.and_eq_true, Bool.or_eq_true, decide_eq_true_eq] at hcond
      obtain ⟨⟨⟨⟨⟨h1, h2⟩, h3⟩, h4⟩, h5⟩, h6⟩ := hcond
      simp only [Option.some.injEq, Prod.mk.injEq] at h
      exact ⟨m1, m2, s1, s2, w, p, h1, h2, h3, h4, h5, h6, h.1.symm⟩
    · exact absurd h (by simp)
  · exact absurd h (by simp)

lemma matchTimeRest_shape_false {cs tl r : List Char}
    (h : matchTimeRest false cs = some (tl, r)) :
    ∃ m1 m2 w p : Char,
      isDigitC m1 = true ∧ isDigitC m2 = true ∧ isWS w = true ∧ (p = 'A' ∨ p = 'P') ∧
      tl = ':' :: m1 :: m2 :: [w, p, 'M'] := by
  unfold matchTimeRest at h
  rw [if_neg (by simp)] at h
  split at h
  · next m1 m2 w p rest =>
    split at h
    · next hcond =>
      simp only [Bool.and_eq_true, Bool.or_eq_true, decide_eq_true_eq] at hcond
      obtain ⟨⟨⟨h1, h2⟩, h3⟩, h4⟩ := hcond
      simp only [Option.some.injEq, Prod.mk.injEq] at h
      exact ⟨m1, m2, w, p, h1, h2, h3, h4, h.1.symm⟩
    · exact absurd h (by simp)
  · exact absurd h (by simp)

lemma matchTime_shape {ws : Bool} {cs t r : List Char}
    (h : matchTime ws cs = some (t, r)) :
    ∃ (hd tl : List Char) (cs' : List Char),
      (∀ x ∈ hd, isDigitC x = true) ∧ hd ≠ [] ∧ hd.length ≤ 2 ∧
      t = hd ++ tl ∧ matchTimeRest ws cs' = some (tl, r) := by
  unfold matchTime at h
  split at h
  · exact absurd h (by simp)
  · next a rest =>
    split at h
    · next ha =>
      split at h
      · exact absurd h (by simp)
      · next b rest2 =>
        split at h
        · next hb =>
          split at h
          · next t0 r0 heq =>
            simp only [Option.some.injEq, Prod.mk.injEq] at h
            obtain ⟨ht, hr⟩ := h
            refine ⟨[a, b], t0, rest2, ?_, by simp, by simp, ?_, ?_⟩
            · intro x hx
              rcases List.mem_pair.mp hx with rfl | rfl
              · exact ha
              · exact hb
            · rw [← ht]; rfl
            · rw [heq, hr]
          · next heq =>
            rw [Option.map_eq_some'] at h
            obtain ⟨⟨tl0, r0⟩, hm, heq2⟩ := h
            simp only [Prod.mk.injEq] at heq2
            refine ⟨[a], tl0, b :: rest2, by simpa using ha, by simp, by simp, ?_, ?_⟩
            · rw [← heq2.1]; rfl
            · rw [hm, heq2.2]
        · next hb =>
          rw [Option.map_eq_some'] at h
          obtain ⟨⟨tl0, r0⟩, hm, heq2⟩ := h
          simp only [Prod.mk.injEq] at heq2
          refine ⟨[a], tl0, b :: rest2, by simpa using ha, by simp, by simp, ?_, ?_⟩
          · rw [← heq2.1]; rfl
          · rw [hm, heq2.2]
    · exact absurd h (by simp)

lemma matchHeader_groups {b : Bool} {line d t s c : List Char}
    (h : matchHeader b line = some (d, t, s, c)) :
    (∃ cs r : List Char, matchDate cs = some (d, r)) ∧
    (∃ cs r : List Char, matchTime b cs = some (t, r)) := by
  unfold matchHeader at h
  split at h
  · next rest =>
    split at h
    · next dateText r1 heq1 =>
      split at h
      · next w1 r2 =>
        split at h
        · next hw1 =>
          split at h
          · next timeText r3 heq2 =>
            split at h
            · next w2 r4 =>
              split at h
              · next hw2 =>
                rw [Option.map_eq_some'] at h
                obtain ⟨⟨sv, cv⟩, hs, heq⟩ := h
                simp only [Prod.mk.injEq] at heq
                obtain ⟨hd1, ht1, -, -⟩ := heq
                exact ⟨⟨rest, _, hd1 ▸ heq1⟩, ⟨r2, _, ht1 ▸ heq2⟩⟩
              · exact absurd h (by simp)
            · exact absurd h (by simp)
          · exact absurd h (by simp)
        · exact absurd h (by simp)
      · exact absurd h (by simp)
    · exact absurd h (by simp)
  · exact absurd h (by simp)

/-! ## Lemmas: the field computations of `mkMessage` -/

lemma mkMessage_hour (d t s c : List Char) (ln : Nat) :
    (mkMessage d t s c ln).ts.hour =
      (if hasSub "PM".toList t = true ∧ hourFieldVal t < 12 then hourFieldVal t + 12
       else if hasSub "PM".toList t = false ∧ hourFieldVal t = 12 then 0
       else hourFieldVal t) := rfl

lemma mkMessage_second (d t s c : List Char) (ln : Nat) :
    (mkMessage d t s c ln).ts.second =
      (if (splitOnChar ':' t).length > 2
       then pInt (removeAmPm ((splitOnChar ':' t).getD 2 [])) else 0) := rfl

lemma mkMessage_day (d t s c : List Char) (ln : Nat) :
    (mkMessage d t s c ln).ts.day = pInt ((splitOnChar '/' d).getD 0 []) := rfl

lemma mkMessage_month (d t s c : List Char) (ln : Nat) :
    (mkMessage d t s c ln).ts.month = (pInt ((splitOnChar '/' d).getD 1 []) : Int) - 1 := rfl

lemma mkMessage_year (d t s c : List Char) (ln : Nat) :
    (mkMessage d t s c ln).ts.year =
      (if pInt ((splitOnChar '/' d).getD 2 []) < 100
       then pInt ((splitOnChar '/' d).getD 2 []) + 2000
       else pInt ((splitOnChar '/' d).getD 2 [])) := rfl

/-- The four 12-hour conversion cases, given the designator `p` and the
fact that the `PM` marker occurs in the time text iff `p = 'P'`. -/
lemma hourClauses (d t s c : List Char) (p : Char)
    (hampm : amPmOf t = p) (hPM : hasSub "PM".toList t = decide (p = 'P')) :
    (amPmOf t = 'A' → hourFieldVal t = 12 → (mkMessage d t s c 1).ts.hour = 0) ∧
    (amPmOf t = 'P' → hourFieldVal t = 12 → (mkMessage d t s c 1).ts.hour = 12) ∧
    (amPmOf t = 'P' → 1 ≤ hourFieldVal t → hourFieldVal t ≤ 11 →
      (mkMessage d t s c 1).ts.hour = hourFieldVal t + 12) ∧
    (amPmOf t = 'A' → hourFieldVal t ≠ 12 → (mkMessage d t s c 1).ts.hour = hourFieldVal t) := by
  refine ⟨?_, ?_, ?_, ?_⟩
  · intro hA h12
    have hp : p = 'A' := hampm.symm.trans hA
    subst hp
    rw [mkMessage_hour, hPM]
    simp [h12]
  · intro hP h12
    have hp : p = 'P' := hampm.symm.trans hP
    subst hp
    rw [mkMessage_hour, hPM]
    simp [h12]
  · intro hP hge hle
    have hp : p = 'P' := hampm.symm.trans hP
    subst hp
    rw [mkMessage_hour, hPM]
    simp [show hourFieldVal t < 12 by omega]
  · intro hA hne
    have hp : p = 'A' := hampm.symm.trans hA
    subst hp
    rw [mkMessage_hour, hPM]
    simp [hne]

/-! ## Claims -/

/-- C1 (amended): the Relationship Window Analyzer produces a window
starting at day-index `s` for exactly those `s` in `{0, 15, 30, ...}` with
`s + 30 < N` (the loop bound `i < sortedDays.length - WINDOW_SIZE` is
strict, not `s + 30 ≤ N`); one window is produced per such start, for
`N = 61` that is still exactly the 3 windows at indices 0, 15 and 30, and
no trailing partial window is ever produced. -/
theorem claimC1 :
    (∀ (msgs : List AMsg) (s : Nat),
        s ∈ windowStarts (sortedDays msgs).length ↔
          15 ∣ s ∧ s + 30 < (sortedDays msgs).length) ∧
    (∀ msgs : List AMsg,
        (windowMetricsList msgs).length = (windowStarts (sortedDays msgs).length).length) ∧
    windowStarts 61 = [0, 15, 30] ∧
    (windowMetricsList (allDays 61)).map (fun w => w.startDate) = [0, 15, 30] := by
  refine ⟨fun msgs s => windowStarts_mem _ s, fun msgs => by simp [windowMetricsList],
    by decide, by decide⟩

/-- C1, counterexample to the claim as stated: on a corpus with `N = 60`
distinct days, the start `s = 30` satisfies the claim's condition
`15 ∣ s ∧ s + 30 ≤ N`, yet the analyzer produces no window starting
there (the loop condition is `30 < 60 - 30`, which is false). -/
theorem claimC1_counterexample :
    (sortedDays (allDays 60)).length = 60 ∧ (15 ∣ 30 ∧ 30 + 30 ≤ 60) ∧
    30 ∉ windowStarts (sortedDays (allDays 60)).length := by decide

/-- C2: for adjacent windows `p`, `c` of the metrics list (with the JS
float divisions meaningful, i.e. nonzero denominators), a pattern shift —
keyed to the current window's start date and carrying both relative-change
metrics and both windows — is recorded iff the absolute relative change of
messages-per-day or of response-frequency exceeds 0.3; concretely,
messages-per-day 10→14 (with response frequency unchanged) is recorded,
keyed to the current window's start date 15, and 10→12 is not. -/
theorem claimC2 :
    (∀ (pre post : List WindowMetrics) (p c : WindowMetrics),
        p.messagesPerDay ≠ 0 → p.responseFrequency ≠ 0 →
        ((⟨c.startDate,
           (c.messagesPerDay - p.messagesPerDay) / p.messagesPerDay,
           (c.responseFrequency - p.responseFrequency) / p.responseFrequency,
           p, c⟩ : PatternShift) ∈ detectShifts (pre ++ p :: c :: post) ↔
          (|(c.messagesPerDay - p.messagesPerDay) / p.messagesPerDay| > 3 / 10 ∨
           |(c.responseFrequency - p.responseFrequency) / p.responseFrequency| > 3 / 10))) ∧
    (detectShifts [⟨0, 29, 300, 10, 1/2⟩, ⟨15, 44, 420, 14, 1/2⟩]).map
      (fun sh => sh.date) = [15] ∧
    detectShifts [⟨0, 29, 300, 10, 1/2⟩, ⟨15, 44, 360, 12, 1/2⟩] = [] := by
  have h03 : (0.3 : ℚ) = 3 / 10 := by norm_num
  refine ⟨?_, ?_, ?_⟩
  · intro pre post p c hmpd hrf
    constructor
    · intro h
      have hc := detectShifts_mem_cond _ p c h
      rw [h03] at hc
      exact hc
    · intro h
      exact detectShifts_mem_of_cond p c (by rw [h03]; exact h) pre post
  · have ha : |(2 : ℚ) / 5| = 2/5 := abs_of_nonneg (by norm_num)
    norm_num [detectShifts, mkShift, ha]
  · have ha : |(1 : ℚ) / 5| = 1/5 := abs_of_nonneg (by norm_num)
    norm_num [detectShifts, mkShift, ha]

/-- C2, witness: the general characterization applied to the concrete
10→14 pair of windows. -/
theorem claimC2_witness :
    (⟨(15 : Nat), ((14 : ℚ) - 10) / 10, (((1 : ℚ)/2) - 1/2) / (1/2),
      ⟨0, 29, 300, 10, 1/2⟩, ⟨15, 44, 420, 14, 1/2⟩⟩ : PatternShift) ∈
      detectShifts [⟨0, 29, 300, 10, 1/2⟩, ⟨15, 44, 420, 14, 1/2⟩] := by
  have h := (claimC2.1 [] [] ⟨0, 29, 300, 10, 1/2⟩ ⟨15, 44, 420, 14, 1/2⟩
    (by norm_num) (by norm_num)).mpr ?cond
  · exact h
  case cond =>
    left
    rw [show ((⟨15, 44, 420, 14, 1/2⟩ : WindowMetrics).messagesPerDay -
        (⟨0, 29, 300, 10, 1/2⟩ : WindowMetrics).messagesPerDay) /
        (⟨0, 29, 300, 10, 1/2⟩ : WindowMetrics).messagesPerDay = 2/5 by norm_num]
    rw [abs_of_nonneg (by norm_num)]
    norm_num

/-- C3: in the Temporal Aggregator, a consecutive pair contributes a
response-time sample exactly when the senders differ and the latency is
strictly below 1440 minutes, the sample is recorded for the second
message's sender, and `avgResponseTimes` maps each sender with at least
one sample to the arithmetic mean of that sender's samples (and no value
to a sender with none). -/
theorem claimC3 :
    (∀ (msgs : List AMsg) (s : String),
        responseTimesBySender msgs s =
          ((msgs.zip msgs.tail).filter
            (fun q => decide (q.2.sender = s) && decide (q.2.sender ≠ q.1.sender) &&
              decide (respTime q.1 q.2 < 1440))).map (fun q => respTime q.1 q.2)) ∧
    (∀ (msgs : List AMsg) (s : String), responseTimesBySender msgs s ≠ [] →
        avgResponseTimes msgs s =
          some ((responseTimesBySender msgs s).sum /
            ((responseTimesBySender msgs s).length : ℚ))) ∧
    (∀ (msgs : List AMsg) (s : String), responseTimesBySender msgs s = [] →
        avgResponseTimes msgs s = none) := by
  refine ⟨?_, ?_, ?_⟩
  · intro msgs s
    cases msgs with
    | nil => simp [responseTimesBySender]
    | cons m rest =>
      show respLoop m rest (fun _ => []) s = _
      rw [respLoop_eq]
      simp
  · intro msgs s h
    unfold avgResponseTimes
    rw [if_neg (by simpa [List.isEmpty_iff] using h), List.sum_eq_foldl]
  · intro msgs s h
    unfold avgResponseTimes
    rw [if_pos (by simpa [List.isEmpty_iff] using h)]

/-- C3, witness: applied to a two-message conversation with a one-minute
cross-sender latency. -/
theorem claimC3_witness :
    avgResponseTimes [⟨0, "A"⟩, ⟨60000, "B"⟩] "B" =
      some ((responseTimesBySender [⟨0, "A"⟩, ⟨60000, "B"⟩] "B").sum /
        ((responseTimesBySender [⟨0, "A"⟩, ⟨60000, "B"⟩] "B").length : ℚ)) :=
  claimC3.2.1 [⟨0, "A"⟩, ⟨60000, "B"⟩] "B" (by
    norm_num +decide [responseTimesBySender, respLoop, recordResp, respTime])

/-- C9: the orchestrator `analyzeWhatsAppChat` fails on an empty message
sequence (the source throws before assembling any report; the model
returns `none`), and it is only the empty sequence that fails: every
nonempty sequence yields a report. -/
theorem claimC9 :
    analyzeWhatsAppChat [] = none ∧
    ∀ msgs : List AMsg, msgs ≠ [] → ∃ r, analyzeWhatsAppChat msgs = some r := by
  constructor
  · rfl
  · intro msgs h
    cases msgs with
    | nil => exact absurd rfl h
    | cons m rest =>
      cases hg : (m :: rest).getLast? with
      | none => exact absurd (List.getLast?_eq_none_iff.mp hg) (by simp)
      | some last =>
        exact ⟨_, by rw [analyzeWhatsAppChat, List.head?_cons, hg]⟩

/-- C9, witness: a one-message corpus yields a report. -/
theorem claimC9_witness : (analyzeWhatsAppChat [⟨0, "A"⟩]).isSome = true := by
  obtain ⟨r, hr⟩ := claimC9.2 [⟨0, "A"⟩] (by simp)
  rw [hr]
  rfl

/-- C10: every produced window covers exactly 30 distinct days, each with
at least one message, hence has at least 30 messages and messages-per-day
at least 1; the divisors of the response-frequency and of the
messages-per-day relative change are therefore never zero; but a produced
window's response frequency itself can be 0 (single-sender corpus), so
the response-frequency relative change can still divide by zero. -/
theorem claimC10 :
    (∀ (msgs : List AMsg) (i : Nat), i ∈ windowStarts (sortedDays msgs).length →
      (windowDays (sortedDays msgs) i).length = 30 ∧
      (windowDays (sortedDays msgs) i).Nodup ∧
      (∀ d ∈ windowDays (sortedDays msgs) i, ∃ m ∈ msgs, dayOf m = d) ∧
      30 ≤ (mkWindow msgs (sortedDays msgs) i).messageCount ∧
      1 ≤ (mkWindow msgs (sortedDays msgs) i).messagesPerDay ∧
      (mkWindow msgs (sortedDays msgs) i).messagesPerDay ≠ 0 ∧
      ((mkWindow msgs (sortedDays msgs) i).messageCount : ℚ) ≠ 0) ∧
    (windowMetricsList (allDays 46)).map (fun w => w.responseFrequency) = [0, 0] := by
  constructor
  · intro msgs i hi
    have hbound : i + 30 < (sortedDays msgs).length := ((windowStarts_mem _ i).mp hi).2
    have hlen : (windowDays (sortedDays msgs) i).length = 30 := windowDays_length hbound
    have hmem : ∀ d ∈ windowDays (sortedDays msgs) i, ∃ m ∈ msgs, dayOf m = d := by
      intro d hd
      exact mem_sortedDays.mp ((windowDays_sublist _ i).subset hd)
    have hnodup : (windowDays (sortedDays msgs) i).Nodup :=
      (windowDays_sublist _ i).nodup (sortedDays_nodup msgs)
    have hcount : 30 ≤ (windowMsgs msgs (sortedDays msgs) i).length := by
      have h30 := le_length_flatMap (windowDays (sortedDays msgs) i)
        (fun d => msgs.filter (fun m => decide (dayOf m = d))) ?_
      · rw [hlen] at h30
        exact h30
      · intro d hd
        obtain ⟨m, hm, hday⟩ := hmem d hd
        have : m ∈ msgs.filter (fun m => decide (dayOf m = d)) :=
          List.mem_filter.mpr ⟨hm, by simp [hday]⟩
        calc 1 ≤ 1 := le_refl 1
          _ ≤ (msgs.filter (fun m => decide (dayOf m = d))).length :=
            List.length_pos.mpr (List.ne_nil_of_mem this)
    have hmpd : 1 ≤ (mkWindow msgs (sortedDays msgs) i).messagesPerDay := by
      show (1 : ℚ) ≤ ((windowMsgs msgs (sortedDays msgs) i).length : ℚ) /
        ((windowDays (sortedDays msgs) i).length : ℚ)
      rw [hlen]
      rw [one_le_div (by norm_num : (0 : ℚ) < (30 : Nat))]
      exact_mod_cast hcount
    refine ⟨hlen, hnodup, hmem, hcount, hmpd, ?_, ?_⟩
    · exact ne_of_gt (lt_of_lt_of_le one_pos hmpd)
    · show ((windowMsgs msgs (sortedDays msgs) i).length : ℚ) ≠ 0
      exact Nat.cast_ne_zero.mpr (by omega)
  · have h1 : windowStarts (sortedDays (allDays 46)).length = [0, 15] := by decide
    have h2 : countResponses (windowMsgs (allDays 46) (sortedDays (allDays 46)) 0) = 0 := by
      decide
    have h3 : countResponses (windowMsgs (allDays 46) (sortedDays (allDays 46)) 15) = 0 := by
      decide
    simp [windowMetricsList, h1, mkWindow, h2, h3]

/-- C10, witness: the invariants at the first window of a 46-day
single-sender corpus. -/
theorem claimC10_witness :
    (windowDays (sortedDays (allDays 46)) 0).length = 30 ∧
    30 ≤ (mkWindow (allDays 46) (sortedDays (allDays 46)) 0).messageCount ∧
    1 ≤ (mkWindow (allDays 46) (sortedDays (allDays 46)) 0).messagesPerDay := by
  obtain ⟨h1, h2, h3, h4, h5, h6, h7⟩ := claimC10.1 (allDays 46) 0 (by decide)
  exact ⟨h1, h4, h5⟩

/-- C5: a transcript of header lines only (every line matches one of the
two bracketed-timestamp patterns, no continuation lines) parses to exactly
one message per line, in source order (message `k` carries line number
`k + 1`). -/
theorem claimC5 (lines : List (List Char))
    (h : ∀ l ∈ lines, (matchHeaderEither l).isSome = true) :
    (parseCustomChat lines).length = lines.length ∧
    (parseCustomChat lines).map (fun m => m.lineNumber) = List.range' 1 lines.length := by
  rw [parseCustomChat, parseLines_headers lines h 0 none]
  simp only [Option.toList_none, List.nil_append]
  exact ⟨headerMessages_length lines h 0, headerMessages_lineNumbers lines h 0⟩

/-- C5, witness: a two-header transcript yields exactly two messages in
source order. -/
theorem claimC5_witness :
    (parseCustomChat [hdrAlice, hdrBob]).length = 2 ∧
    (parseCustomChat [hdrAlice, hdrBob]).map (fun m => m.lineNumber) = List.range' 1 2 :=
  claimC5 [hdrAlice, hdrBob] (by decide)

/-- C6: a header line followed by two non-blank non-matching lines yields
exactly one message whose content is the header content, a newline, the
second line, a newline, and the third line; and interleaving blank lines
neither closes nor extends the open message (the output is unchanged). -/
theorem claimC6 (hl l2 l3 b d t s c : List Char)
    (hh : matchHeaderEither hl = some (d, t, s, c))
    (h2b : isBlank l2 = false) (h2m : matchHeaderEither l2 = none)
    (h3b : isBlank l3 = false) (h3m : matchHeaderEither l3 = none)
    (hb : isBlank b = true) :
    parseCustomChat [hl, l2, l3] =
      [{ mkMessage d t s c 1 with content := c ++ '\n' :: l2 ++ '\n' :: l3 }] ∧
    parseCustomChat [hl, b, l2, b, l3] = parseCustomChat [hl, l2, l3] := by
  have hhb := not_blank_of_match hh
  constructor
  · rw [parseCustomChat]
    simp only [parseLines, hhb, h2b, h2m, h3b, h3m, Bool.false_eq_true, if_false, hh,
      List.nil_append]
    simp [mkMessage_content, List.append_assoc]
  · rw [parseCustomChat, parseCustomChat]
    simp only [parseLines, hhb, hb, Bool.false_eq_true, if_false, if_true, hh,
      h2b, h2m, h3b, h3m, List.nil_append]

/-- C6, witness: the folding applied to a concrete three-line transcript
with a concrete blank line. -/
theorem claimC6_witness :
    parseCustomChat [hdrAlice, "how".toList, "are you".toList] =
      [{ mkMessage "01/02/23".toList "09:15 PM".toList "Alice".toList "hi".toList 1 with
          content := "hi".toList ++ '\n' :: "how".toList ++ '\n' :: "are you".toList }] ∧
    parseCustomChat [hdrAlice, " ".toList, "how".toList, " ".toList, "are you".toList] =
      parseCustomChat [hdrAlice, "how".toList, "are you".toList] :=
  claimC6 hdrAlice "how".toList "are you".toList " ".toList
    "01/02/23".toList "09:15 PM".toList "Alice".toList "hi".toList
    (by decide) (by decide) (by decide) (by decide) (by decide) (by decide)

/-- C8: the derived flags and all header-derived fields of a message are
fixed at header-match time; appending continuation lines only extends the
content.  Concretely, a continuation line consisting of a media-omission
marker leaves `isMedia = false` even though the final content contains
the marker. -/
theorem claimC8 :
    (∀ (hl : List Char) (ls : List (List Char)) (d t s c : List Char),
        matchHeaderEither hl = some (d, t, s, c) →
        (∀ l ∈ ls, isBlank l = false ∧ matchHeaderEither l = none) →
        parseCustomChat (hl :: ls) =
          [{ mkMessage d t s c 1 with content := c ++ ls.flatMap (fun l => '\n' :: l) }]) ∧
    (parseCustomChat [hdrAlice, "image omitted".toList]).map (fun m => m.content) =
      [("hi" ++ "\n" ++ "image omitted").toList] ∧
    (parseCustomChat [hdrAlice, "image omitted".toList]).map (fun m => m.isMedia) =
      [false] ∧
    checkMedia ("hi" ++ "\n" ++ "image omitted").toList = true := by
  refine ⟨?_, by decide, by decide, by decide⟩
  intro hl ls d t s c hh hcont
  have hhb := not_blank_of_match hh
  rw [parseCustomChat]
  simp only [parseLines, hhb, Bool.false_eq_true, if_false, hh, List.nil_append]
  rw [parseLines_continuations ls hcont 1 (mkMessage d t s c 1)]
  simp [mkMessage_content]

/-- C8, witness: the general frame property applied to the concrete
header plus media-marker continuation. -/
theorem claimC8_witness :
    parseCustomChat [hdrAlice, "image omitted".toList] =
      [{ mkMessage "01/02/23".toList "09:15 PM".toList "Alice".toList "hi".toList 1 with
          content := "hi".toList ++
            ["image omitted".toList].flatMap (fun l => '\n' :: l) }] :=
  claimC8.1 hdrAlice ["image omitted".toList]
    "01/02/23".toList "09:15 PM".toList "Alice".toList "hi".toList
    (by decide) (by decide)

/-- C4: for every accepted header line, writing `h` for the numeric value
of the hour field of the matched time text and reading the designator off
the time text, the stored hour is: 12 AM → 0, 12 PM → 12, PM hours 1–11 →
`h + 12`, AM hours other than 12 → `h`; and the seconds component is 0
whenever the line is accepted by the no-seconds pattern (the with-seconds
pattern having failed).  Concretely `12:30:00 AM` → hour 0, `12:30:00 PM`
→ hour 12, `09:15 PM` → hour 21 with second 0. -/
theorem claimC4 :
    (∀ (line d t s c : List Char), matchHeaderEither line = some (d, t, s, c) →
      (amPmOf t = 'A' → hourFieldVal t = 12 → (mkMessage d t s c 1).ts.hour = 0) ∧
      (amPmOf t = 'P' → hourFieldVal t = 12 → (mkMessage d t s c 1).ts.hour = 12) ∧
      (amPmOf t = 'P' → 1 ≤ hourFieldVal t → hourFieldVal t ≤ 11 →
        (mkMessage d t s c 1).ts.hour = hourFieldVal t + 12) ∧
      (amPmOf t = 'A' → hourFieldVal t ≠ 12 → (mkMessage d t s c 1).ts.hour = hourFieldVal t) ∧
      (matchHeader true line = none → (mkMessage d t s c 1).ts.second = 0)) ∧
    (parseCustomChat ["[01/02/23, 12:30:00 AM] A: hi".toList]).map
      (fun m => m.ts.hour) = [0] ∧
    (parseCustomChat ["[01/02/23, 12:30:00 PM] A: hi".toList]).map
      (fun m => m.ts.hour) = [12] ∧
    (parseCustomChat ["[01/02/23, 09:15 PM] A: hi".toList]).map
      (fun m => (m.ts.hour, m.ts.second)) = [(21, 0)] := by
  refine ⟨?_, by decide, by decide, by decide⟩
  intro line d t s c h
  have hsplit : ((∃ cs r : List Char, matchTime true cs = some (t, r)) ∧
        matchHeader true line ≠ none) ∨
      ((∃ cs r : List Char, matchTime false cs = some (t, r)) ∧
        matchHeader true line = none) := by
    unfold matchHeaderEither at h
    cases hT : matchHeader true line with
    | some v =>
      rw [hT] at h
      injection h with hv
      subst hv
      exact Or.inl ⟨(matchHeader_groups hT).2, by simp⟩
    | none =>
      rw [hT] at h
      exact Or.inr ⟨(matchHeader_groups h).2, rfl⟩
  rcases hsplit with ⟨⟨cs0, r0, hmt⟩, hTsome⟩ | ⟨⟨cs0, r0, hmt⟩, hTnone⟩
  · -- the with-seconds pattern matched
    obtain ⟨hd, tl, cs', hdig, hne, hlen2, rfl, hrest⟩ := matchTime_shape hmt
    obtain ⟨m1, m2, s1, s2, w, p, h1, h2, h3, h4, hw, hap, rfl⟩ :=
      matchTimeRest_shape_true hrest
    rcases hd with - | ⟨a, hd'⟩
    · exact absurd rfl hne
    rcases hd' with - | ⟨b, hd''⟩
    · have hPM := hasSub_pm_secs [a] m1 m2 s1 s2 w p
        (by simpa using hdig a (by simp)) h1 h2 h3 h4 hw
      have hampm : amPmOf ([a] ++ ':' :: m1 :: m2 :: ':' :: s1 :: s2 :: [w, p, 'M']) =
          p := rfl
      obtain ⟨c1, c2, c3, c4⟩ := hourClauses d _ s c p hampm hPM
      exact ⟨c1, c2, c3, c4, fun hn => absurd hn hTsome⟩
    rcases hd'' with - | ⟨x, hd3⟩
    · have hPM := hasSub_pm_secs [a, b] m1 m2 s1 s2 w p
        (fun x hx => hdig x hx) h1 h2 h3 h4 hw
      have hampm : amPmOf ([a, b] ++ ':' :: m1 :: m2 :: ':' :: s1 :: s2 :: [w, p, 'M']) =
          p := rfl
      obtain ⟨c1, c2, c3, c4⟩ := hourClauses d _ s c p hampm hPM
      exact ⟨c1, c2, c3, c4, fun hn => absurd hn hTsome⟩
    · simp at hlen2
  · -- the no-seconds pattern matched
    obtain ⟨hd, tl, cs', hdig, hne, hlen2, rfl, hrest⟩ := matchTime_shape hmt
    obtain ⟨m1, m2, w, p, h1, h2, hw, hap, rfl⟩ := matchTimeRest_shape_false hrest
    have hpc : p ≠ ':' := by rcases hap with rfl | rfl <;> decide
    have hnosep : ∀ x ∈ (m1 :: m2 :: [w, p, 'M'] : List Char), x ≠ ':' := by
      intro x hx
      simp only [List.mem_cons, List.not_mem_nil, or_false] at hx
      rcases hx with rfl | rfl | rfl | rfl | rfl
      · exact ne_of_cls h1 (by decide)
      · exact ne_of_cls h2 (by decide)
      · exact ne_of_cls hw (by decide)
      · exact hpc
      · decide
    have hsecond : ∀ hdc : List Char, (∀ x ∈ hdc, isDigitC x = true) →
        (mkMessage d (hdc ++ ':' :: m1 :: m2 :: [w, p, 'M']) s c 1).ts.second = 0 := by
      intro hdc hdcdig
      rw [mkMessage_second,
        splitOnChar_append_sep hdc _ (fun x hx => ne_of_cls (hdcdig x hx) (by decide)),
        splitOnChar_no_sep hnosep]
      simp
    rcases hd with - | ⟨a, hd'⟩
    · exact absurd rfl hne
    rcases hd' with - | ⟨b, hd''⟩
    · have hPM := hasSub_pm_nosecs [a] m1 m2 w p
        (by simpa using hdig a (by simp)) h1 h2 hw
      have hampm : amPmOf ([a] ++ ':' :: m1 :: m2 :: [w, p, 'M']) = p := rfl
      obtain ⟨c1, c2, c3, c4⟩ := hourClauses d _ s c p hampm hPM
      exact ⟨c1, c2, c3, c4, fun _ => hsecond [a] (by simpa using hdig a (by simp))⟩
    rcases hd'' with - | ⟨x, hd3⟩
    · have hPM := hasSub_pm_nosecs [a, b] m1 m2 w p (fun x hx => hdig x hx) h1 h2 hw
      have hampm : amPmOf ([a, b] ++ ':' :: m1 :: m2 :: [w, p, 'M']) = p := rfl
      obtain ⟨c1, c2, c3, c4⟩ := hourClauses d _ s c p hampm hPM
      exact ⟨c1, c2, c3, c4, fun _ => hsecond [a, b] (fun x hx => hdig x hx)⟩
    · simp at hlen2

/-- C4, witness: the general conversion applied to the concrete
`12:30:00 AM` header line. -/
theorem claimC4_witness :
    (mkMessage "01/02/23".toList "12:30:00 AM".toList "A".toList "hi".toList 1).ts.hour =
      0 :=
  (claimC4.1 "[01/02/23, 12:30:00 AM] A: hi".toList
    "01/02/23".toList "12:30:00 AM".toList "A".toList "hi".toList (by decide)).1
    (by decide) (by decide)

/-- C7: for every accepted header line the date text is `DD/MM/YY` with
the two-digit year stored as `2000 + YY` and the day and month fields
taken literally in day-month-year order (month stored 0-indexed as
`MM - 1`); no range validation is performed — the out-of-range date
`45/27/23` parses successfully into the component-wise timestamp
`(year 2023, month-index 26, day 45)`, and `01/02/23` yields year 2023. -/
theorem claimC7 :
    (∀ (line d t s c : List Char), matchHeaderEither line = some (d, t, s, c) →
      ∃ a b m1 m2 y1 y2 : Char,
        isDigitC a = true ∧ isDigitC b = true ∧ isDigitC m1 = true ∧ isDigitC m2 = true ∧
        isDigitC y1 = true ∧ isDigitC y2 = true ∧
        d = [a, b, '/', m1, m2, '/', y1, y2] ∧
        (mkMessage d t s c 1).ts.year = 2000 + (10 * dVal y1 + dVal y2) ∧
        (mkMessage d t s c 1).ts.day = 10 * dVal a + dVal b ∧
        (mkMessage d t s c 1).ts.month = (10 * dVal m1 + dVal m2 : Int) - 1) ∧
    (parseCustomChat ["[01/02/23, 09:15 PM] A: x".toList]).map
      (fun m => (m.ts.year, m.ts.month, m.ts.day)) = [(2023, 1, 1)] ∧
    (parseCustomChat ["[45/27/23, 09:15 PM] A: x".toList]).map
      (fun m => (m.ts.year, m.ts.month, m.ts.day)) = [(2023, 26, 45)] := by
  refine ⟨?_, by decide, by decide⟩
  intro line d t s c h
  have hdate : ∃ cs r : List Char, matchDate cs = some (d, r) := by
    unfold matchHeaderEither at h
    cases hT : matchHeader true line with
    | some v =>
      rw [hT] at h
      injection h with hv
      subst hv
      exact (matchHeader_groups hT).1
    | none =>
      rw [hT] at h
      exact (matchHeader_groups h).1
  obtain ⟨cs0, r0, hmd⟩ := hdate
  obtain ⟨a, b, m1, m2, y1, y2, ha, hb, hm1, hm2, hy1, hy2, rfl⟩ := matchDate_shape hmd
  have hsp : splitOnChar '/' [a, b, '/', m1, m2, '/', y1, y2] =
      [[a, b], [m1, m2], [y1, y2]] := by
    rw [show ([a, b, '/', m1, m2, '/', y1, y2] : List Char) =
      [a, b] ++ '/' :: ([m1, m2] ++ '/' :: [y1, y2]) from rfl]
    rw [splitOnChar_append_sep [a, b] _ (by
      intro x hx
      rcases List.mem_pair.mp hx with rfl | rfl
      · exact ne_of_cls ha (by decide)
      · exact ne_of_cls hb (by decide))]
    rw [splitOnChar_append_sep [m1, m2] _ (by
      intro x hx
      rcases List.mem_pair.mp hx with rfl | rfl
      · exact ne_of_cls hm1 (by decide)
      · exact ne_of_cls hm2 (by decide))]
    rw [splitOnChar_no_sep (by
      intro x hx
      rcases List.mem_pair.mp hx with rfl | rfl
      · exact ne_of_cls hy1 (by decide)
      · exact ne_of_cls hy2 (by decide))]
  refine ⟨a, b, m1, m2, y1, y2, ha, hb, hm1, hm2, hy1, hy2, rfl, ?_, ?_, ?_⟩
  · rw [mkMessage_year, hsp]
    rw [show ([[a, b], [m1, m2], [y1, y2]] : List (List Char)).getD 2 [] = [y1, y2]
      from rfl]
    rw [pInt_two y1 y2 hy1 hy2]
    have h9a := dVal_le_nine hy1
    have h9b := dVal_le_nine hy2
    rw [if_pos (by omega)]
    omega
  · rw [mkMessage_day, hsp]
    rw [show ([[a, b], [m1, m2], [y1, y2]] : List (List Char)).getD 0 [] = [a, b]
      from rfl]
    exact pInt_two a b ha hb
  · rw [mkMessage_month, hsp]
    rw [show ([[a, b], [m1, m2], [y1, y2]] : List (List Char)).getD 1 [] = [m1, m2]
      from rfl]
    rw [pInt_two m1 m2 hm1 hm2]
    push_cast
    ring

/-- C7, witness: the general field extraction applied to the concrete
`01/02/23` header line. -/
theorem claimC7_witness :
    ∃ a b m1 m2 y1 y2 : Char,
      isDigitC a = true ∧ isDigitC b = true ∧ isDigitC m1 = true ∧ isDigitC m2 = true ∧
      isDigitC y1 = true ∧ isDigitC y2 = true ∧
      "01/02/23".toList = [a, b, '/', m1, m2, '/', y1, y2] ∧
      (mkMessage "01/02/23".toList "09:15 PM".toList "A".toList "x".toList 1).ts.year =
        2000 + (10 * dVal y1 + dVal y2) ∧
      (mkMessage "01/02/23".toList "09:15 PM".toList "A".toList "x".toList 1).ts.day =
        10 * dVal a + dVal b ∧
      (mkMessage "01/02/23".toList "09:15 PM".toList "A".toList "x".toList 1).ts.month =
        (10 * dVal m1 + dVal m2 : Int) - 1 :=
  claimC7.1 "[01/02/23, 09:15 PM] A: x".toList
    "01/02/23".toList "09:15 PM".toList "A".toList "x".toList (by decide)

end TheIdeaOfUs
